import Mathlib

/-!
Verification of the vcline task-graph execution engine and selected task code.

The repository (dceoy/vcline) builds genomic-analysis pipelines on top of the
luigi workflow library.  The engine behaviour (Target readiness, dependency
expansion with completion pruning, the priority scheduler, the Command Batch
pre/post checks and the failure-cleanup policy) lives in `vcline/task/base.py`,
`vcline/cli/builder.py` and the adopted workflow library, none of which are
present under `src/`; those parts are modelled from the specification, as
marked in the doc comment of each such definition.  Everything that is present
under `src/` (output path derivation in `task/align.py`, the Mutect2 fan-out
structure and the cleanup-args tuple in `task/mutect2.py`, the in-memory
completion flag of `PrintEnvVersions` in `task/controller.py`, the AF-only VCF
line filter in `task/processvcf.py`, the stage priorities) is embedded
directly from the source.
-/

namespace Vcline

/-! ### Filesystem model

The engine is a single-host, filesystem-state-driven incremental build
system: the only persistent state it consults is which paths exist.  A
filesystem is modelled as the list of existing paths. -/

abbrev FilePath' := String

abbrev FS := List FilePath'

/-- Modelled from the spec: §3/§4.1 Target readiness (luigi `LocalTarget.exists`
composed over every constituent path; `vcline/task/base.py` and the workflow
library are absent from `src/`).  A Target, given as its ordered sequence of
constituent paths, is ready iff every path exists. -/
def isReady (fs : FS) (paths : List FilePath') : Bool :=
  paths.all fs.contains

theorem isReady_iff (fs : FS) (paths : List FilePath') :
    isReady fs paths = true ↔ ∀ p ∈ paths, p ∈ fs := by
  simp only [isReady, List.all_eq_true]
  constructor
  · intro h p hp
    exact List.elem_iff.mp (h p hp)
  · intro h p hp
    exact List.elem_iff.mpr (h p hp)

theorem isReady_append_right (fs extra : FS) (paths : List FilePath')
    (h : isReady fs paths = true) : isReady (fs ++ extra) paths = true := by
  rw [isReady_iff] at h ⊢
  intro p hp
  exact List.mem_append_left _ (h p hp)

/-! ### Output declaration of AlignReads

Embedded from `src/vcline/task/align.py` lines 24-31: the output is the CRAM
path `<align_dir_path>/<fq_id>.trim.<fa_stem>.cram` together with its `.crai`
companion (`[luigi.LocalTarget(f'{cram}{s}') for s in ['', '.crai']]`).
`parse_fq_id` and the FASTA stem come from inputs and are taken as
parameters. -/
def alignReadsCramPath (alignDirPath fqId faStem : String) : FilePath' :=
  alignDirPath ++ "/" ++ fqId ++ ".trim." ++ faStem ++ ".cram"

def alignReadsOutput (alignDirPath fqId faStem : String) : List FilePath' :=
  [alignReadsCramPath alignDirPath fqId faStem,
   alignReadsCramPath alignDirPath fqId faStem ++ ".crai"]

/-! ### Stage graph and dependency expansion

Modelled from the spec: §3 Stage and §4.3 Dependency Graph Builder.  A Stage
carries an identity, an integer priority (higher runs first), its dependency
Stages, its declared output paths, and the number of Command Batches its run
procedure issues. -/

inductive GStage where
  | node (id : Nat) (priority : Int) (outputs : List FilePath')
      (nBatches : Nat) (deps : List GStage)

def GStage.id : GStage → Nat
  | .node i _ _ _ _ => i

def GStage.priority : GStage → Int
  | .node _ p _ _ _ => p

def GStage.outputs : GStage → List FilePath'
  | .node _ _ o _ _ => o

def GStage.nBatches : GStage → Nat
  | .node _ _ _ n _ => n

def GStage.deps : GStage → List GStage
  | .node _ _ _ _ d => d

/-- Modelled from the spec: §3/§4.2 — a Stage is complete iff its Completion
Oracle check passes, i.e. iff every declared output Target is ready. -/
def isComplete (fs : FS) (s : GStage) : Bool :=
  isReady fs s.outputs

/- Modelled from the spec: §4.3 Dependency Graph Builder — depth-first
expansion over `dependencies()`, memoising by Stage identity (the visited
list) so a shared Stage is visited once; a Stage the Completion Oracle
reports complete is pruned together with its whole upstream subgraph (its
dependencies are never visited).  Returns the post-order list of Stages that
must run, dependencies before dependents. -/
mutual

/-- Modelled from the spec: §4.3 — depth-first expansion of a single Stage,
pruning complete Stages without visiting their dependencies. -/
def expandStage (fs : FS) (visited : List Nat) :
    GStage → List GStage × List Nat
  | .node i pr outs nb deps =>
    if visited.contains i then ([], visited)
    else if isReady fs outs then ([], i :: visited)
    else
      let (l, v) := expandList fs (i :: visited) deps
      (l ++ [.node i pr outs nb deps], v)

def expandList (fs : FS) (visited : List Nat) :
    List GStage → List GStage × List Nat
  | [] => ([], visited)
  | s :: rest =>
    let (l1, v1) := expandStage fs visited s
    let (l2, v2) := expandList fs v1 rest
    (l1 ++ l2, v2)

end

/-- The execution set for one requested terminal Stage: the not-yet-complete
ancestors, in dependency order, the terminal Stage last. -/
def execSet (fs : FS) (s : GStage) : List GStage :=
  (expandStage fs [] s).1

/-- Modelled from the spec: §2/§4.4 — a successful run executes every Stage of
the execution set; each Stage's run procedure creates its declared outputs
(verified by the post-execution existence check of §3 Command Batch). -/
def runPipeline (fs : FS) (s : GStage) : FS :=
  (execSet fs s).foldl (fun acc t => acc ++ t.outputs) fs

/-- Total number of Command Batches dispatched when executing an execution
set. -/
def totalBatches (l : List GStage) : Nat :=
  (l.map GStage.nBatches).sum

theorem execSet_of_complete (fs : FS) (s : GStage)
    (h : isComplete fs s = true) : execSet fs s = [] := by
  cases s with
  | node i pr outs nb deps =>
    simp only [isComplete, GStage.outputs] at h
    simp [execSet, expandStage, h]

theorem execSet_of_incomplete (fs : FS) (s : GStage)
    (h : isComplete fs s = false) :
    execSet fs s =
      (expandList fs [s.id] s.deps).1 ++ [s] := by
  cases s with
  | node i pr outs nb deps =>
    simp only [isComplete, GStage.outputs] at h
    simp [execSet, expandStage, h, GStage.id, GStage.deps]

theorem outputs_subset_runPipeline (fs : FS) (s : GStage) :
    isReady (runPipeline fs s) s.outputs = true := by
  by_cases h : isComplete fs s = true
  · have he := execSet_of_complete fs s h
    simp only [runPipeline, he, List.foldl_nil]
    exact h
  · have h' : isComplete fs s = false := by
      cases hb : isComplete fs s with
      | false => rfl
      | true => exact absurd hb h
    have he := execSet_of_incomplete fs s h'
    simp only [runPipeline, he, List.foldl_append, List.foldl_cons,
      List.foldl_nil]
    rw [isReady_iff]
    intro p hp
    exact List.mem_append_right _ hp

theorem mem_execSet_self_of_incomplete (fs : FS) (s : GStage)
    (h : isComplete fs s = false) : s ∈ execSet fs s := by
  rw [execSet_of_incomplete fs s h]
  exact List.mem_append_right _ (List.mem_singleton.mpr rfl)

/-- C1: a Target is ready iff every one of its constituent paths exists; in
particular a Stage declaring the AlignReads output pair (`<...>.cram` and
`<...>.cram.crai`, embedded from `align.py` lines 24-31) is not complete when
only the primary CRAM exists (the `.crai` companion is missing), and such a
Stage is in the execution set, i.e. it must run. -/
theorem c1_target_ready_iff_paths_exist
    (fs : FS) (paths : List FilePath') (alignDirPath fqId faStem : String)
    (s : GStage)
    (hout : s.outputs = alignReadsOutput alignDirPath fqId faStem)
    (hcrai : (alignReadsCramPath alignDirPath fqId faStem ++ ".crai") ∉ fs) :
    (isReady fs paths = true ↔ ∀ p ∈ paths, p ∈ fs) ∧
      isComplete fs s = false ∧ s ∈ execSet fs s := by
  have hcomp : isComplete fs s = false := by
    cases hb : isComplete fs s with
    | false => rfl
    | true =>
      exfalso
      apply hcrai
      have := (isReady_iff fs s.outputs).mp hb
      exact this _ (by rw [hout]; exact List.mem_cons_of_mem _ (List.mem_singleton.mpr rfl))
  exact ⟨isReady_iff fs paths, hcomp, mem_execSet_self_of_incomplete fs s hcomp⟩

theorem c1_witness :
    isComplete ["/d/x.trim.ref.cram"]
        (GStage.node 7 70 (alignReadsOutput "/d" "x" "ref") 2 []) = false ∧
      (GStage.node 7 70 (alignReadsOutput "/d" "x" "ref") 2 []) ∈
        execSet ["/d/x.trim.ref.cram"]
          (GStage.node 7 70 (alignReadsOutput "/d" "x" "ref") 2 []) := by
  have h := c1_target_ready_iff_paths_exist
    ["/d/x.trim.ref.cram"] [] "/d" "x" "ref"
    (GStage.node 7 70 (alignReadsOutput "/d" "x" "ref") 2 [])
    (by rfl) (by decide)
  exact ⟨h.2.1, h.2.2⟩

/-- C2: running the engine a second time with no filesystem changes executes
zero Command Batches: after a successful run of a terminal Stage, the second
expansion is empty; and in general every Stage whose declared outputs all
exist is pruned from the execution set without its dependencies being
visited (pruning is transitive), regardless of upstream state. -/
theorem c2_second_run_is_noop (fs : FS) (s : GStage) :
    execSet (runPipeline fs s) s = [] ∧
      totalBatches (execSet (runPipeline fs s) s) = 0 ∧
      (∀ fs' : FS, ∀ t : GStage, isComplete fs' t = true → execSet fs' t = []) := by
  have hc : isComplete (runPipeline fs s) s = true :=
    outputs_subset_runPipeline fs s
  have he := execSet_of_complete _ s hc
  refine ⟨he, ?_, fun fs' t ht => execSet_of_complete fs' t ht⟩
  rw [he]
  rfl

theorem c2_witness :
    execSet
        (runPipeline ["in.fq"]
          (GStage.node 1 70 ["out.cram", "out.cram.crai"] 2
            [GStage.node 0 50 ["trim.fq"] 1 []]))
        (GStage.node 1 70 ["out.cram", "out.cram.crai"] 2
          [GStage.node 0 50 ["trim.fq"] 1 []]) = [] ∧
      isComplete ["done.txt"] (GStage.node 9 10 ["done.txt"] 3
          [GStage.node 8 10 ["up.txt"] 1 []]) = true ∧
      execSet ["done.txt"] (GStage.node 9 10 ["done.txt"] 3
          [GStage.node 8 10 ["up.txt"] 1 []]) = [] := by
  have h := c2_second_run_is_noop ["in.fq"]
    (GStage.node 1 70 ["out.cram", "out.cram.crai"] 2
      [GStage.node 0 50 ["trim.fq"] 1 []])
  exact ⟨h.1,
    by decide,
    h.2.2 ["done.txt"] (GStage.node 9 10 ["done.txt"] 3
      [GStage.node 8 10 ["up.txt"] 1 []]) (by decide)⟩

/-! ### Scheduler

Modelled from the spec: §4.4 Scheduler — a ready set of Stages whose
dependencies are all complete, highest-priority-first dispatch with ties
broken by discovery order, completion marking, and output publication to the
filesystem.  For the scheduler the expansion result is a flat list of Stage
records whose dependencies are referenced by Stage identity. -/

structure SStage where
  sid : Nat
  priority : Int
  deps : List Nat
  outputs : List FilePath'
deriving DecidableEq, Repr

/-- Modelled from the spec: §4.4 — the ready set: unscheduled Stages whose
dependencies are all complete (i.e. already finished). -/
def readyOf (finishedIds : List Nat) (waiting : List SStage) : List SStage :=
  waiting.filter (fun s => s.deps.all finishedIds.contains)

/-- Modelled from the spec: §4.4 — pick the highest-priority ready Stage;
ties are broken by discovery order (stable: an equal-priority later Stage
never displaces an earlier one). -/
def pickMax : List SStage → Option SStage
  | [] => none
  | s :: rest =>
    some (rest.foldl (fun best t => if best.priority < t.priority then t else best) s)

structure SchedState where
  waiting : List SStage
  finished : List SStage
  fs : FS
deriving DecidableEq, Repr

structure TraceEntry where
  stage : SStage
  fsAtDispatch : FS
  finishedAtDispatch : List SStage
deriving DecidableEq, Repr

/-- Modelled from the spec: §4.4 — one scheduler step with a single worker
slot: dispatch the highest-priority ready Stage; when its run procedure
returns successfully its declared outputs exist on the filesystem and it is
marked complete. -/
def schedStep (st : SchedState) : Option (TraceEntry × SchedState) :=
  match pickMax (readyOf (st.finished.map SStage.sid) st.waiting) with
  | none => none
  | some s =>
    some (⟨s, st.fs, st.finished⟩,
      ⟨st.waiting.erase s, st.finished ++ [s], st.fs ++ s.outputs⟩)

/-- Modelled from the spec: §4.4 — run the scheduler loop, recording for each
dispatch the Stage, the filesystem and the finished set at dispatch time. -/
def schedRun : Nat → SchedState → List TraceEntry
  | 0, _ => []
  | n + 1, st =>
    match schedStep st with
    | none => []
    | some (e, st') => e :: schedRun n st'

theorem pickMax_mem (l : List SStage) (s : SStage) (h : pickMax l = some s) :
    s ∈ l := by
  cases l with
  | nil => simp [pickMax] at h
  | cons a rest =>
    simp only [pickMax, Option.some.injEq] at h
    subst h
    clear * -
    induction rest generalizing a with
    | nil => simp
    | cons b tl ih =>
      simp only [List.foldl_cons]
      by_cases hb : a.priority < b.priority
      · simp only [hb, if_true]
        have := ih b
        simpa using Or.inr this
      · simp only [hb, if_false]
        have := ih a
        rcases List.mem_cons.mp this with h1 | h1
        · rw [h1]; exact List.mem_cons_self _ _
        · exact List.mem_cons_of_mem _ (List.mem_cons_of_mem _ h1)

/-- Scheduler invariant relative to the initial waiting set `w0`: every
finished Stage's outputs are on the filesystem, and the finished and waiting
Stages all come from `w0`. -/
def SchedInv (w0 : List SStage) (st : SchedState) : Prop :=
  (∀ t ∈ st.finished, ∀ p ∈ t.outputs, p ∈ st.fs) ∧
    (∀ t ∈ st.finished, t ∈ w0) ∧ (∀ t ∈ st.waiting, t ∈ w0)

theorem schedStep_inv (w0 : List SStage) (st : SchedState)
    (e : TraceEntry) (st' : SchedState)
    (hstep : schedStep st = some (e, st')) (hinv : SchedInv w0 st) :
    SchedInv w0 st' := by
  unfold schedStep at hstep
  cases hpick : pickMax (readyOf (st.finished.map SStage.sid) st.waiting) with
  | none => rw [hpick] at hstep; exact absurd hstep (by simp)
  | some s =>
    rw [hpick] at hstep
    simp only [Option.some.injEq, Prod.mk.injEq] at hstep
    obtain ⟨-, hst'⟩ := hstep
    have hs_ready := pickMax_mem _ _ hpick
    have hs_wait : s ∈ st.waiting := List.mem_of_mem_filter hs_ready
    obtain ⟨hfs, hfin, hwait⟩ := hinv
    subst hst'
    refine ⟨?_, ?_, ?_⟩
    · intro t ht p hp
      rcases List.mem_append.mp ht with h1 | h1
      · exact List.mem_append_left _ (hfs t h1 p hp)
      · rw [List.mem_singleton.mp h1] at hp
        exact List.mem_append_right _ hp
    · intro t ht
      rcases List.mem_append.mp ht with h1 | h1
      · exact hfin t h1
      · rw [List.mem_singleton.mp h1]
        exact hwait s hs_wait
    · intro t ht
      exact hwait t (List.mem_of_mem_erase ht)

theorem schedRun_dispatch_deps_done (n : Nat) (w0 : List SStage)
    (st : SchedState) (hinv : SchedInv w0 st)
    (hnodup : (w0.map SStage.sid).Nodup) (e : TraceEntry)
    (he : e ∈ schedRun n st) (d : SStage) (hd : d ∈ w0)
    (hdep : d.sid ∈ e.stage.deps) :
    d ∈ e.finishedAtDispatch ∧ ∀ p ∈ d.outputs, p ∈ e.fsAtDispatch := by
  induction n generalizing st with
  | zero => simp [schedRun] at he
  | succ m ih =>
    unfold schedRun at he
    cases hstep : schedStep st with
    | none => rw [hstep] at he; simp at he
    | some pair =>
      obtain ⟨e0, st'⟩ := pair
      rw [hstep] at he
      rcases List.mem_cons.mp he with heq | htail
      · subst heq
        unfold schedStep at hstep
        cases hpick : pickMax (readyOf (st.finished.map SStage.sid) st.waiting) with
        | none => rw [hpick] at hstep; exact absurd hstep (by simp)
        | some s =>
          rw [hpick] at hstep
          simp only [Option.some.injEq, Prod.mk.injEq] at hstep
          obtain ⟨he0, -⟩ := hstep
          have hs_ready := pickMax_mem _ _ hpick
          have hs_ready' : s ∈ List.filter
              (fun x => x.deps.all (st.finished.map SStage.sid).contains)
              st.waiting := hs_ready
          have hs_deps : s.deps.all (st.finished.map SStage.sid).contains = true := by
            have := (List.mem_filter.mp hs_ready').2
            simpa using this
          subst he0
          simp only at hdep ⊢
          have hds : d.sid ∈ st.finished.map SStage.sid := by
            have := (List.all_eq_true.mp hs_deps) d.sid hdep
            exact List.elem_iff.mp this
          obtain ⟨t, htfin, htid⟩ := List.mem_map.mp hds
          obtain ⟨hfs, hfin, -⟩ := hinv
          have htw0 : t ∈ w0 := hfin t htfin
          have hdt : d = t := by
            exact List.inj_on_of_nodup_map hnodup hd htw0 htid.symm
          subst hdt
          exact ⟨htfin, fun p hp => hfs d htfin p hp⟩
      · exact ih st' (schedStep_inv w0 st e0 st' hstep hinv) htail

/-- C5: for every dependency edge, no Command Batch of the dependent Stage
starts before the dependency has finished and every declared output path of
the dependency exists: at the dispatch of any Stage in any scheduler trace,
each of its dependency Stages is already in the finished set (its run
procedure returned successfully) and all of that dependency's declared
outputs are on the filesystem.  This is the engine-level guarantee that, for
example, `MarkDuplicates` (which `@requires(AlignReads, ...)` in `align.py`)
never starts before `AlignReads` has produced its CRAM and index. -/
theorem c5_no_batch_before_dependency_outputs (fuel : Nat)
    (w0 : List SStage) (fs0 : FS)
    (hnodup : (w0.map SStage.sid).Nodup) (e : TraceEntry)
    (he : e ∈ schedRun fuel ⟨w0, [], fs0⟩) (d : SStage) (hd : d ∈ w0)
    (hdep : d.sid ∈ e.stage.deps) :
    d ∈ e.finishedAtDispatch ∧ ∀ p ∈ d.outputs, p ∈ e.fsAtDispatch := by
  apply schedRun_dispatch_deps_done fuel w0 ⟨w0, [], fs0⟩ ?_ hnodup e he d hd hdep
  exact ⟨by intro t ht; simp at ht, by intro t ht; simp at ht, fun t ht => ht⟩

/-- Demo instance of the AlignReads Stage for the scheduler (priority 70 as in
`align.py` line 22; produces a CRAM and its index). -/
def demoAlign : SStage := ⟨0, 70, [], ["a.cram", "a.cram.crai"]⟩

/-- Demo instance of the MarkDuplicates Stage, which `@requires(AlignReads,
...)` in `align.py` line 84: it depends on the AlignReads Stage. -/
def demoMarkdup : SStage := ⟨1, 70, [0], ["m.cram"]⟩

theorem c5_witness :
    demoAlign ∈ (⟨demoMarkdup, ["a.cram", "a.cram.crai"], [demoAlign]⟩ :
        TraceEntry).finishedAtDispatch ∧
      ∀ p ∈ demoAlign.outputs,
        p ∈ (⟨demoMarkdup, ["a.cram", "a.cram.crai"], [demoAlign]⟩ :
          TraceEntry).fsAtDispatch :=
  c5_no_batch_before_dependency_outputs 2 [demoMarkdup, demoAlign] []
    (by decide) ⟨demoMarkdup, ["a.cram", "a.cram.crai"], [demoAlign]⟩
    (by decide) demoAlign (by decide) (by decide)

/-- Embedded from `align.py` line 22: `AlignReads.priority = 70`. -/
def alignReadsPriority : Int := 70

/-- Embedded from `delly.py` line 19:
`CallStructualVariantsWithDelly.priority = 10`. -/
def dellyPriority : Int := 10

/-- C7: with two simultaneously-ready Stages of priorities 10 (as declared by
`CallStructualVariantsWithDelly`) and 70 (as declared by `AlignReads`) and a
single free worker slot, the Scheduler dispatches the priority-70 Stage
first, in either discovery order. -/
theorem c7_priority_70_dispatched_first (s t : SStage)
    (hs : s.priority = dellyPriority) (ht : t.priority = alignReadsPriority) :
    pickMax [s, t] = some t ∧ pickMax [t, s] = some t ∧
      (∀ fs : FS, s.deps = [] → t.deps = [] →
        (schedStep ⟨[s, t], [], fs⟩).map (fun x => x.1.stage) = some t) := by
  have h1 : pickMax [s, t] = some t := by
    simp only [pickMax, List.foldl_cons, List.foldl_nil, hs, ht,
      dellyPriority, alignReadsPriority]
    norm_num
  refine ⟨h1, ?_, ?_⟩
  · simp only [pickMax, List.foldl_cons, List.foldl_nil, hs, ht,
      dellyPriority, alignReadsPriority]
    norm_num
  · intro fs hsd htd
    simp only [schedStep, readyOf, List.map_nil, List.filter_cons,
      List.filter_nil, hsd, htd, List.all_nil, if_true]
    rw [h1]
    rfl

theorem c7_witness :
    pickMax [⟨2, dellyPriority, [], ["sv.bcf"]⟩,
        ⟨3, alignReadsPriority, [], ["x.cram"]⟩] =
      some ⟨3, alignReadsPriority, [], ["x.cram"]⟩ ∧
      (schedStep ⟨[⟨2, dellyPriority, [], ["sv.bcf"]⟩,
          ⟨3, alignReadsPriority, [], ["x.cram"]⟩], [], []⟩).map
        (fun x => x.1.stage) =
        some ⟨3, alignReadsPriority, [], ["x.cram"]⟩ := by
  have h := c7_priority_70_dispatched_first
    ⟨2, dellyPriority, [], ["sv.bcf"]⟩ ⟨3, alignReadsPriority, [], ["x.cram"]⟩
    rfl rfl
  exact ⟨h.1, h.2.2 [] rfl rfl⟩

/-! ### Run Context cleanup policy and Command Batch execution checks -/

/-- Modelled from the spec: the cleanup policy flag — `remove_if_failed` is
enabled exactly when `--skip-cleaning` is not given on the CLI
(`cli/main.py` lines 120-129 forward `skip_cleaning=args['--skip-cleaning']`;
the wiring into the per-run configuration happens in `cli/builder.py`, which
is absent from `src/`). -/
def removeIfFailed (skipCleaning : Bool) : Bool := !skipCleaning

/-- Modelled from the spec: §4.6 Run Context teardown (`ShellTask.setup_shell`
in `task/base.py` is absent from `src/`) — when the Stage failed and the
cleanup policy is enabled, every output path declared by the failed Stage's
Command Batches (including partially written files) is deleted; otherwise
the filesystem is left untouched. -/
def teardown (removeOnFail failed : Bool) (declaredOutputs : List FilePath')
    (fs : FS) : FS :=
  if failed && removeOnFail then
    fs.filter (fun p => !declaredOutputs.contains p)
  else fs

/-- C3: after a Stage whose Command Batch failed having written a partial
output file, with cleanup enabled (`--skip-cleaning` not given) none of the
Stage's declared output paths exists — in particular the partial file is
gone; with cleanup disabled (`--skip-cleaning` given) the partial file
remains on disk. -/
theorem c3_cleanup_on_failure (outs : List FilePath') (fs : FS)
    (partialFile : FilePath') (hmem : partialFile ∈ outs)
    (hin : partialFile ∈ fs) :
    (∀ p ∈ outs, p ∉ teardown (removeIfFailed false) true outs fs) ∧
      partialFile ∉ teardown (removeIfFailed false) true outs fs ∧
      partialFile ∈ teardown (removeIfFailed true) true outs fs := by
  have hall : ∀ p ∈ outs, p ∉ teardown (removeIfFailed false) true outs fs := by
    intro p hp hcontra
    simp only [teardown, removeIfFailed, Bool.not_false, Bool.and_self,
      if_true] at hcontra
    have := (List.mem_filter.mp hcontra).2
    simp only [Bool.not_eq_true'] at this
    exact absurd (List.elem_iff.mpr hp) (by simpa using this)
  exact ⟨hall, hall partialFile hmem, by simpa [teardown, removeIfFailed] using hin⟩

theorem c3_witness :
    ("x.cram" : FilePath') ∉
        teardown (removeIfFailed false) true ["x.cram", "x.cram.crai"]
          ["x.cram", "in.fq"] ∧
      ("x.cram" : FilePath') ∈
        teardown (removeIfFailed true) true ["x.cram", "x.cram.crai"]
          ["x.cram", "in.fq"] := by
  have h := c3_cleanup_on_failure ["x.cram", "x.cram.crai"] ["x.cram", "in.fq"]
    "x.cram" (by decide) (by decide)
  exact ⟨h.2.1, h.2.2⟩

/-- A Command Batch as declared through `ShellTask.run_shell`: an ordered list
of command strings with the input paths they read and the output paths they
must produce (`input_files_or_dirs` / `output_files_or_dirs`). -/
structure CmdBatch where
  commands : List String
  inputFiles : List FilePath'
  outputFiles : List FilePath'
deriving DecidableEq, Repr

inductive BatchError where
  | missingInputError
  | commandExecutionError
deriving DecidableEq, Repr

/-- Modelled from the spec: §3 Command Batch invariant and §7 error taxonomy
(`ShellTask.run_shell` in `task/base.py` is absent from `src/`) — before
execution every declared input path must exist, otherwise the batch aborts
with `MissingInputError` and executes no command; the child-process filesystem
effect and exit code are abstracted as parameters; after execution every
declared output path must exist, otherwise the batch fails with
`CommandExecutionError` even when the exit code is zero.  Returns the outcome
together with the number of commands executed. -/
def runBatch (effect : FS → FS) (exitCode : Nat) (fs : FS) (b : CmdBatch) :
    Except BatchError FS × Nat :=
  if !(b.inputFiles.all fs.contains) then
    (Except.error BatchError.missingInputError, 0)
  else
    let fs' := effect fs
    if exitCode ≠ 0 then
      (Except.error BatchError.commandExecutionError, b.commands.length)
    else if !(b.outputFiles.all fs'.contains) then
      (Except.error BatchError.commandExecutionError, b.commands.length)
    else (Except.ok fs', b.commands.length)

/-- C4: if any declared input path of a Command Batch does not exist when the
batch is about to run, the batch aborts with `MissingInputError` executing
zero commands; and if after execution (exit code zero) any declared output
path does not exist, the batch is treated as failed
(`CommandExecutionError`). -/
theorem c4_input_precheck_output_verification (effect : FS → FS)
    (b : CmdBatch) :
    (∀ (fs : FS) (exitCode : Nat) (p : FilePath'), p ∈ b.inputFiles →
        p ∉ fs →
        runBatch effect exitCode fs b =
          (Except.error BatchError.missingInputError, 0)) ∧
      (∀ (fs : FS) (q : FilePath'), b.inputFiles.all fs.contains = true →
        q ∈ b.outputFiles → q ∉ effect fs →
        (runBatch effect 0 fs b).1 =
          Except.error BatchError.commandExecutionError) := by
  constructor
  · intro fs exitCode p hp hnot
    have hall : b.inputFiles.all fs.contains = false := by
      cases hb : b.inputFiles.all fs.contains with
      | false => rfl
      | true =>
        exfalso
        exact hnot (List.elem_iff.mp (List.all_eq_true.mp hb p hp))
    simp [runBatch, hall]
  · intro fs q hin hq hnot
    have hall : b.outputFiles.all (effect fs).contains = false := by
      cases hb : b.outputFiles.all (effect fs).contains with
      | false => rfl
      | true =>
        exfalso
        exact hnot (List.elem_iff.mp (List.all_eq_true.mp hb q hq))
    simp [runBatch, hin, hall]

theorem c4_witness :
    runBatch (fun fs => fs) 0 [] ⟨["bwa mem"], ["in.fq"], ["out.cram"]⟩ =
        (Except.error BatchError.missingInputError, 0) ∧
      (runBatch (fun fs => fs) 0 ["in.fq"]
          ⟨["bwa mem"], ["in.fq"], ["out.cram"]⟩).1 =
        Except.error BatchError.commandExecutionError := by
  have h := c4_input_precheck_output_verification (fun fs => fs)
    ⟨["bwa mem"], ["in.fq"], ["out.cram"]⟩
  exact ⟨h.1 [] 0 "in.fq" (by decide) (by decide),
    h.2 ["in.fq"] "out.cram" (by decide) (by decide) (by decide)⟩

/-! ### PrintEnvVersions and its in-memory completion flag

Embedded from `src/vcline/task/controller.py` lines 29-64.  `PrintEnvVersions`
overrides `complete()` to return a class-level in-memory flag instead of
checking filesystem targets. -/

structure PrintEnvVersionsState where
  isCompleted : Bool
deriving DecidableEq, Repr

/-- Embedded from `controller.py` line 33: `__is_completed = False` — the flag
every fresh process (including one started after a restart) begins with. -/
def printEnvVersionsInit : PrintEnvVersionsState := ⟨false⟩

/-- Embedded from `controller.py` lines 35-36: `complete()` returns the
in-memory flag and never inspects the filesystem. -/
def printEnvVersionsComplete (st : PrintEnvVersionsState) : Bool :=
  st.isCompleted

/-- Embedded from `controller.py` lines 38-64: `run()` prints environment
versions and ends with `self.__is_completed = True`. -/
def printEnvVersionsRun (_ : PrintEnvVersionsState) : PrintEnvVersionsState :=
  ⟨true⟩

/-- Embedded from `controller.py`: `PrintEnvVersions` declares no `output()`
targets, so the existence check over its declared output paths is vacuous. -/
def printEnvVersionsOutputs : List FilePath' := []

/-- C8 counterexample: the claim that every Stage's completeness check equals
the existence check over its declared output paths, with no in-memory record,
fails on `PrintEnvVersions`: in a fresh process its `complete()` is `false`
while the existence check over its (empty) declared outputs is `true`, and
its answer flips after `run()` with no filesystem change at all — so the
answer is not preserved across process restarts either. -/
theorem c8_counterexample :
    printEnvVersionsComplete printEnvVersionsInit = false ∧
      isReady [] printEnvVersionsOutputs = true ∧
      printEnvVersionsComplete printEnvVersionsInit ≠
        isReady [] printEnvVersionsOutputs ∧
      printEnvVersionsComplete (printEnvVersionsRun printEnvVersionsInit) =
        true ∧
      printEnvVersionsComplete printEnvVersionsInit ≠
        printEnvVersionsComplete (printEnvVersionsRun printEnvVersionsInit) := by
  decide

/-- C8 amended: every pipeline Stage except `PrintEnvVersions` decides
completion solely by the existence of its declared output paths on the
filesystem (the Completion Oracle is the existence check, with no other
record), while `PrintEnvVersions` alone overrides `complete()` with a
transient in-memory flag — initially `false` in every process and set by its
`run()` — so its completion is independent of the filesystem and is not
preserved across process restarts. -/
theorem c8_amended_completion_ledger :
    (∀ (fs : FS) (s : GStage), isComplete fs s = isReady fs s.outputs) ∧
      (∀ st : PrintEnvVersionsState,
        printEnvVersionsComplete st = st.isCompleted) ∧
      printEnvVersionsComplete printEnvVersionsInit = false ∧
      printEnvVersionsComplete (printEnvVersionsRun printEnvVersionsInit) =
        true :=
  ⟨fun _ _ => rfl, fun _ => rfl, rfl, rfl⟩

/-! ### CallVariantsWithMutect2 (mutect2.py)

Path derivations and the control flow of `CallVariantsWithMutect2.run` are
embedded from `src/vcline/task/mutect2.py`; the synchronous/asynchronous
execution semantics of `ShellTask.run_shell` (absent from `src/`) are
modelled from the spec §4.5. -/

/-- Embedded from `mutect2.py` lines 124-135: the declared outputs of
`CallVariantsWithMutect2`, in order: `vcf.gz`, `vcf.gz.tbi`, `vcf.gz.stats`,
`cram`, `cram.crai`, `read-orientation-model.tar.gz`, each prefixed by
`<dir>/<matched_id>.mutect2.`. -/
def mutect2OutputPaths (dirPath matchedId : String) : List FilePath' :=
  ["vcf.gz", "vcf.gz.tbi", "vcf.gz.stats", "cram", "cram.crai",
   "read-orientation-model.tar.gz"].map
    (fun s => dirPath ++ "/" ++ matchedId ++ ".mutect2." ++ s)

/-- Embedding of Python `re.sub(r'<literal suffix>$', repl, s)`: the anchored
pattern replaces the suffix when present and leaves the string unchanged
otherwise (computed on the character list so that it evaluates by
`decide`). -/
def reSubSuffix (suffix repl s : String) : String :=
  if s.data.length < suffix.data.length then s
  else if s.data.drop (s.data.length - suffix.data.length) = suffix.data then
    String.mk (s.data.take (s.data.length - suffix.data.length)) ++ repl
  else s

/-- Embedded from `mutect2.py` lines 158-163:
`re.sub(r'\.cram$', '.{stem}.cram', output_cram_path)`. -/
def mutect2TmpCramPath (outputCramPath stem : String) : FilePath' :=
  reSubSuffix ".cram" ("." ++ stem ++ ".cram") outputCramPath

/-- Embedded from `mutect2.py` lines 164-169:
`re.sub(r'\.vcf\.gz$', '.{stem}.vcf.gz', raw_vcf_path)`. -/
def mutect2TmpVcfPath (rawVcfPath stem : String) : FilePath' :=
  reSubSuffix ".vcf.gz" ("." ++ stem ++ ".vcf.gz") rawVcfPath

/-- Embedded from `mutect2.py` lines 170-175:
`re.sub(r'\.cram$', '.{stem}.f1r2.tar.gz', output_cram_path)`. -/
def mutect2F1r2Path (outputCramPath stem : String) : FilePath' :=
  reSubSuffix ".cram" ("." ++ stem ++ ".f1r2.tar.gz") outputCramPath

/-- The path families used by `CallVariantsWithMutect2.run`. -/
structure Mutect2Paths where
  rawVcf : FilePath'
  rawStats : FilePath'
  outputCram : FilePath'
  obPriors : FilePath'
  tmpCrams : List FilePath'
  tmpVcfs : List FilePath'
  f1r2s : List FilePath'
  tmpStats : List FilePath'
deriving DecidableEq, Repr

/-- Embedded from `mutect2.py` lines 137-176: the derived path families.
When there is a single evaluation interval the temporary CRAM/VCF paths are
the final output paths themselves, otherwise one path per interval stem. -/
def mutect2Paths (dirPath matchedId : String) (stems : List String) :
    Mutect2Paths :=
  let outs := mutect2OutputPaths dirPath matchedId
  let rawVcf := outs.headD ""
  let rawStats := outs.getD 2 ""
  let outputCram := outs.getD 3 ""
  let obPriors := outs.getD 5 ""
  let tmpCrams :=
    if stems.length = 1 then [outputCram]
    else stems.map (mutect2TmpCramPath outputCram)
  let tmpVcfs :=
    if stems.length = 1 then [rawVcf]
    else stems.map (mutect2TmpVcfPath rawVcf)
  let f1r2s := stems.map (mutect2F1r2Path outputCram)
  let tmpStats := tmpVcfs.map (fun v => v ++ ".stats")
  ⟨rawVcf, rawStats, outputCram, obPriors, tmpCrams, tmpVcfs, f1r2s, tmpStats⟩

/-- Embedded from `mutect2.py` lines 185-217: the declared outputs of shard
`i` of the Mutect2 Command Batch — its interval VCF, its interval CRAM, its
f1r2 tar and its stats file. -/
def mutect2PerShardOutputs (p : Mutect2Paths) (n : Nat) :
    List (List FilePath') :=
  (List.range n).map (fun i =>
    [p.tmpVcfs.getD i "", p.tmpCrams.getD i "", p.f1r2s.getD i "",
     p.tmpStats.getD i ""])

/-! ### Python value model for the cleanup `args` expression -/

inductive PyVal where
  | pyInt (n : Int)
  | pyStr (s : String)
  | pyTuple (elems : List PyVal)

inductive PyExcept where
  | typeError (msg : String)
deriving DecidableEq, Repr

/-- Embedding of Python unary `+`: defined on numbers, a `TypeError` on
strings and tuples. -/
def pyUnaryPlus : PyVal → Except PyExcept PyVal
  | .pyInt n => Except.ok (.pyInt n)
  | .pyStr _ => Except.error (.typeError "bad operand type for unary +: str")
  | .pyTuple _ =>
    Except.error (.typeError "bad operand type for unary +: tuple")

/-- Embedded from `mutect2.py` lines 254-259: the `args` expression of the
final cleanup `run_shell` call.  The comma after `' '.join(tmp_stats_paths)`
makes the parenthesised expression a tuple whose second element is
`+ ''.join([f' {p} {p}.tbi' for p in tmp_vcf_paths])`; Python evaluates the
elements in order, so the first element is the `rm -f ...` string and the
second applies unary `+` to a string. -/
def mutect2CleanupArgs (tmpStatsPaths tmpVcfPaths : List String) :
    Except PyExcept PyVal := do
  let first := PyVal.pyStr ("rm -f " ++ String.intercalate " " tmpStatsPaths)
  let second ← pyUnaryPlus (PyVal.pyStr
    (String.join (tmpVcfPaths.map (fun p => " " ++ p ++ " " ++ p ++ ".tbi"))))
  pure (PyVal.pyTuple [first, second])

theorem mutect2CleanupArgs_typeError (tmpStatsPaths tmpVcfPaths : List String) :
    mutect2CleanupArgs tmpStatsPaths tmpVcfPaths =
      Except.error (.typeError "bad operand type for unary +: str") := rfl

/-! ### Execution model of CallVariantsWithMutect2.run -/

inductive StageError where
  | missingInput
  | commandFailed
  | typeError
deriving DecidableEq, Repr

structure Mutect2Outcome where
  fs : FS
  err : Option StageError
  shardsFinished : Nat
deriving DecidableEq, Repr

/-- The filesystem after a fan-out: every successful shard's declared outputs
have been written (failed shards contribute nothing). -/
def addShardOutputs (fs : FS) (shards : List (Bool × List FilePath')) : FS :=
  shards.foldl (fun acc sh => if sh.1 then acc ++ sh.2 else acc) fs

/-- Modelled from the spec: §4.5 asynchronous fan-out — the declared inputs
are checked first; then every shard command runs to completion (siblings are
not force-killed when one fails), each successful shard writing its declared
outputs; the batch as a whole fails iff any shard failed, the first failure
being surfaced only after the join.  Returns the error (if any), the
resulting filesystem, and the number of shard commands that ran to
completion. -/
def asyncFanOut (fs : FS) (inputs : List FilePath')
    (shards : List (Bool × List FilePath')) :
    Option StageError × FS × Nat :=
  if !(inputs.all fs.contains) then (some StageError.missingInput, fs, 0)
  else
    ((if shards.all (fun sh => sh.1) then none
      else some StageError.commandFailed),
     addShardOutputs fs shards, shards.length)

/-- Modelled from the spec: §4.5 synchronous execution with the §3 Command
Batch input pre-check; the external tool's success is abstracted by `ok` and
a successful command's declared outputs exist afterwards. -/
def syncStep (fs : FS) (inputs outputs : List FilePath') (ok : Bool) :
    Except StageError FS :=
  if !(inputs.all fs.contains) then Except.error StageError.missingInput
  else if !ok then Except.error StageError.commandFailed
  else Except.ok (fs ++ outputs)

/-- Embedded from `mutect2.py` lines 137-261: the control flow of
`CallVariantsWithMutect2.run`.  With more than one evaluation interval the
Mutect2 shard commands run as an asynchronous fan-out, then
`MergeSAMsIntoSortedSAM`, `LearnReadOrientationModel`, `MergeMutectStats` and
`MergeVcfs` run in order (each aborting the run on failure), and finally the
cleanup `rm -f` command's `args` expression is evaluated (lines 254-259).
The success of each external command is abstracted by the `...Ok`
parameters. -/
def mutect2Run (dirPath matchedId : String) (stems : List String)
    (inputPaths : List FilePath') (shardOk : List Bool)
    (mergeSamsOk learnOk mergeStatsOk mergeVcfsOk : Bool) (fs0 : FS) :
    Mutect2Outcome :=
  let p := mutect2Paths dirPath matchedId stems
  let multi := 1 < stems.length
  let shards := shardOk.zip (mutect2PerShardOutputs p stems.length)
  let r1 := asyncFanOut fs0 inputPaths shards
  match r1.1 with
  | some e => ⟨r1.2.1, some e, r1.2.2⟩
  | none =>
    let fs1 := r1.2.1
    let n1 := r1.2.2
    let afterMergeSams : Except StageError FS :=
      if multi then syncStep fs1 p.tmpCrams [p.outputCram] mergeSamsOk
      else Except.ok fs1
    match afterMergeSams with
    | Except.error e => ⟨fs1, some e, n1⟩
    | Except.ok fs2 =>
      match syncStep fs2 p.f1r2s [p.obPriors] learnOk with
      | Except.error e => ⟨fs2, some e, n1⟩
      | Except.ok fs3 =>
        if multi then
          match syncStep fs3 p.tmpStats [p.rawStats] mergeStatsOk with
          | Except.error e => ⟨fs3, some e, n1⟩
          | Except.ok fs4 =>
            match syncStep fs4 p.tmpVcfs [p.rawVcf] mergeVcfsOk with
            | Except.error e => ⟨fs4, some e, n1⟩
            | Except.ok fs5 =>
              match mutect2CleanupArgs p.tmpStats p.tmpVcfs with
              | Except.error _ => ⟨fs5, some StageError.typeError, n1⟩
              | Except.ok _ =>
                ⟨fs5.filter (fun q =>
                    !(p.tmpStats.contains q || p.tmpVcfs.contains q ||
                      (p.tmpVcfs.map (fun v => v ++ ".tbi")).contains q)),
                  none, n1⟩
        else ⟨fs3, none, n1⟩

theorem all_contains_iff (fs : FS) (l : List FilePath') :
    l.all fs.contains = true ↔ ∀ p ∈ l, p ∈ fs :=
  isReady_iff fs l

theorem mem_addShardOutputs_of_mem (shards : List (Bool × List FilePath'))
    (fs : FS) (p : FilePath') (h : p ∈ fs) :
    p ∈ addShardOutputs fs shards := by
  induction shards generalizing fs with
  | nil => exact h
  | cons sh rest ih =>
    simp only [addShardOutputs, List.foldl_cons]
    by_cases hb : sh.1 = true
    · simp only [hb, if_true]
      exact ih (fs ++ sh.2) (List.mem_append_left _ h)
    · simp only [hb, if_false]
      exact ih fs h

theorem not_mem_addShardOutputs (shards : List (Bool × List FilePath'))
    (fs : FS) (p : FilePath') (h0 : p ∉ fs)
    (h1 : ∀ sh ∈ shards, p ∉ sh.2) :
    p ∉ addShardOutputs fs shards := by
  induction shards generalizing fs with
  | nil => exact h0
  | cons sh rest ih =>
    simp only [addShardOutputs, List.foldl_cons]
    by_cases hb : sh.1 = true
    · simp only [hb, if_true]
      refine ih (fs ++ sh.2) ?_ (fun t ht => h1 t (List.mem_cons_of_mem _ ht))
      intro hc
      rcases List.mem_append.mp hc with hc | hc
      · exact h0 hc
      · exact h1 sh (List.mem_cons_self _ _) hc
    · simp only [hb, if_false]
      exact ih fs h0 (fun t ht => h1 t (List.mem_cons_of_mem _ ht))

theorem mem_addShardOutputs_of_shard (shards : List (Bool × List FilePath'))
    (fs : FS) (sh : Bool × List FilePath') (q : FilePath')
    (hsh : sh ∈ shards) (hok : sh.1 = true) (hq : q ∈ sh.2) :
    q ∈ addShardOutputs fs shards := by
  induction shards generalizing fs with
  | nil => simp at hsh
  | cons sh0 rest ih =>
    simp only [addShardOutputs, List.foldl_cons]
    rcases List.mem_cons.mp hsh with heq | htl
    · subst heq
      simp only [hok, if_true]
      exact mem_addShardOutputs_of_mem rest _ q (List.mem_append_right _ hq)
    · by_cases hb : sh0.1 = true
      · simp only [hb, if_true]
        exact ih _ htl
      · simp only [hb, if_false]
        exact ih _ htl

theorem syncStep_ok_inv (fs : FS) (ins outs : List FilePath') (ok : Bool)
    (fs' : FS) (h : syncStep fs ins outs ok = Except.ok fs') :
    fs' = fs ++ outs ∧ ins.all fs.contains = true ∧ ok = true := by
  unfold syncStep at h
  by_cases hin : ins.all fs.contains = true
  · simp only [hin, Bool.not_true, Bool.false_eq_true, if_false] at h
    cases ok with
    | false => simp at h
    | true =>
      simp only [Bool.not_true, Bool.false_eq_true, if_false,
        Except.ok.injEq] at h
      exact ⟨h.symm, hin, rfl⟩
  · simp only [Bool.not_eq_true] at hin
    simp [hin] at h

theorem ne_of_string_length_ne {s t : String} (h : s.length ≠ t.length) :
    s ≠ t := fun he => h (he ▸ rfl)

theorem mutect2Paths_rawVcf (d m : String) (stems : List String) :
    (mutect2Paths d m stems).rawVcf = d ++ "/" ++ m ++ ".mutect2." ++ "vcf.gz" :=
  rfl

theorem mutect2Paths_rawStats (d m : String) (stems : List String) :
    (mutect2Paths d m stems).rawStats =
      d ++ "/" ++ m ++ ".mutect2." ++ "vcf.gz.stats" := rfl

theorem mutect2Paths_outputCram (d m : String) (stems : List String) :
    (mutect2Paths d m stems).outputCram =
      d ++ "/" ++ m ++ ".mutect2." ++ "cram" := rfl

theorem mutect2Paths_obPriors (d m : String) (stems : List String) :
    (mutect2Paths d m stems).obPriors =
      d ++ "/" ++ m ++ ".mutect2." ++ "read-orientation-model.tar.gz" := rfl

theorem mutect2_suffix_path_ne (d m : String) (s t : String)
    (h : s.length ≠ t.length) :
    d ++ "/" ++ m ++ ".mutect2." ++ s ≠ d ++ "/" ++ m ++ ".mutect2." ++ t := by
  apply ne_of_string_length_ne
  simp only [String.length_append]
  omega

theorem rawVcf_ne_outputCram (d m : String) (stems : List String) :
    (mutect2Paths d m stems).rawVcf ≠ (mutect2Paths d m stems).outputCram := by
  rw [mutect2Paths_rawVcf, mutect2Paths_outputCram]
  exact mutect2_suffix_path_ne d m _ _ (by decide)

theorem rawVcf_ne_rawStats (d m : String) (stems : List String) :
    (mutect2Paths d m stems).rawVcf ≠ (mutect2Paths d m stems).rawStats := by
  rw [mutect2Paths_rawVcf, mutect2Paths_rawStats]
  exact mutect2_suffix_path_ne d m _ _ (by decide)

theorem rawVcf_ne_obPriors (d m : String) (stems : List String) :
    (mutect2Paths d m stems).rawVcf ≠ (mutect2Paths d m stems).obPriors := by
  rw [mutect2Paths_rawVcf, mutect2Paths_obPriors]
  exact mutect2_suffix_path_ne d m _ _ (by decide)

theorem rawVcf_mem_outputs (d m : String) (stems : List String) :
    (mutect2Paths d m stems).rawVcf ∈ mutect2OutputPaths d m := by
  rw [mutect2Paths_rawVcf]
  simp [mutect2OutputPaths]

theorem asyncFanOut_of_inputs (fs : FS) (inputs : List FilePath')
    (shards : List (Bool × List FilePath'))
    (hin : inputs.all fs.contains = true) :
    asyncFanOut fs inputs shards =
      ((if shards.all (fun sh => sh.1) then none
        else some StageError.commandFailed),
       addShardOutputs fs shards, shards.length) := by
  simp [asyncFanOut, hin]

theorem mutect2PerShardOutputs_length (p : Mutect2Paths) (n : Nat) :
    (mutect2PerShardOutputs p n).length = n := by
  simp [mutect2PerShardOutputs]

theorem zip_all_fst (l1 : List Bool) (l2 : List (List FilePath'))
    (hlen : l1.length = l2.length) :
    (l1.zip l2).all (fun sh => sh.1) = l1.all id := by
  induction l1 generalizing l2 with
  | nil => simp
  | cons b bs ih =>
    cases l2 with
    | nil => simp at hlen
    | cons y ys =>
      simp only [List.zip_cons_cons, List.all_cons, id]
      rw [ih ys (by simpa using hlen)]

theorem mem_zip_right_of_all {α : Type} :
    ∀ (l1 : List Bool) (l2 : List α), l1.length = l2.length →
      l1.all id = true → ∀ x ∈ l2, (true, x) ∈ l1.zip l2
  | [], [] => by simp
  | [], _ :: _ => by simp
  | _ :: _, [] => by simp
  | b :: bs, y :: ys => by
    intro hlen hall x hx
    simp only [List.all_cons, Bool.and_eq_true, id] at hall
    rcases List.mem_cons.mp hx with heq | htl
    · subst heq
      rw [hall.1]
      exact List.mem_cons_self _ _
    · exact List.mem_cons_of_mem _
        (mem_zip_right_of_all bs ys (by simpa using hlen) hall.2 x htl)

theorem snd_mem_of_mem_zip {α β : Type} {a : α} {b : β} {l1 : List α}
    {l2 : List β} (h : (a, b) ∈ l1.zip l2) : b ∈ l2 :=
  (List.of_mem_zip h).2

theorem exists_lt_getD_eq (l : List FilePath') (v : FilePath') (hv : v ∈ l) :
    ∃ i, i < l.length ∧ l.getD i "" = v := by
  obtain ⟨⟨i, hi⟩, hget⟩ := List.get_of_mem hv
  exact ⟨i, hi, by rw [List.getD_eq_getElem l "" hi]; exact hget⟩

theorem getD_quad_mem_perShard (p : Mutect2Paths) (n i : Nat) (hi : i < n) :
    [p.tmpVcfs.getD i "", p.tmpCrams.getD i "", p.f1r2s.getD i "",
      p.tmpStats.getD i ""] ∈ mutect2PerShardOutputs p n := by
  simp only [mutect2PerShardOutputs, List.mem_map]
  exact ⟨i, by simpa using hi, rfl⟩

theorem mutect2Paths_tmpVcfs_length (d m : String) (stems : List String)
    (h : stems.length ≠ 1) :
    (mutect2Paths d m stems).tmpVcfs.length = stems.length := by
  simp [mutect2Paths, h]

theorem mutect2Paths_tmpCrams_length (d m : String) (stems : List String)
    (h : stems.length ≠ 1) :
    (mutect2Paths d m stems).tmpCrams.length = stems.length := by
  simp [mutect2Paths, h]

theorem mutect2Paths_f1r2s_length (d m : String) (stems : List String) :
    (mutect2Paths d m stems).f1r2s.length = stems.length := by
  simp [mutect2Paths]

theorem mutect2Paths_tmpStats_length (d m : String) (stems : List String)
    (h : stems.length ≠ 1) :
    (mutect2Paths d m stems).tmpStats.length = stems.length := by
  simp [mutect2Paths, h]

theorem quad_sub_addShardOutputs (shardOk : List Bool) (p : Mutect2Paths)
    (n : Nat) (fs : FS) (hlen : shardOk.length = n)
    (hall : shardOk.all id = true) (i : Nat) (hi : i < n) (q : FilePath')
    (hq : q ∈ [p.tmpVcfs.getD i "", p.tmpCrams.getD i "", p.f1r2s.getD i "",
      p.tmpStats.getD i ""]) :
    q ∈ addShardOutputs fs (shardOk.zip (mutect2PerShardOutputs p n)) :=
  mem_addShardOutputs_of_shard _ fs
    (true, [p.tmpVcfs.getD i "", p.tmpCrams.getD i "", p.f1r2s.getD i "",
      p.tmpStats.getD i ""]) q
    (mem_zip_right_of_all shardOk _
      (by rw [hlen, mutect2PerShardOutputs_length]) hall _
      (getD_quad_mem_perShard p n i hi))
    rfl hq

theorem tmpVcfs_sub_addShardOutputs (shardOk : List Bool) (p : Mutect2Paths)
    (n : Nat) (fs : FS) (hlen : shardOk.length = n)
    (hall : shardOk.all id = true) (hplen : p.tmpVcfs.length = n)
    (v : FilePath') (hv : v ∈ p.tmpVcfs) :
    v ∈ addShardOutputs fs (shardOk.zip (mutect2PerShardOutputs p n)) := by
  obtain ⟨i, hi, hgd⟩ := exists_lt_getD_eq _ v hv
  refine quad_sub_addShardOutputs shardOk p n fs hlen hall i (by omega) v ?_
  rw [hgd]
  exact List.mem_cons_self _ _

theorem tmpCrams_sub_addShardOutputs (shardOk : List Bool) (p : Mutect2Paths)
    (n : Nat) (fs : FS) (hlen : shardOk.length = n)
    (hall : shardOk.all id = true) (hplen : p.tmpCrams.length = n)
    (v : FilePath') (hv : v ∈ p.tmpCrams) :
    v ∈ addShardOutputs fs (shardOk.zip (mutect2PerShardOutputs p n)) := by
  obtain ⟨i, hi, hgd⟩ := exists_lt_getD_eq _ v hv
  refine quad_sub_addShardOutputs shardOk p n fs hlen hall i (by omega) v ?_
  rw [hgd]
  exact List.mem_cons_of_mem _ (List.mem_cons_self _ _)

theorem f1r2s_sub_addShardOutputs (shardOk : List Bool) (p : Mutect2Paths)
    (n : Nat) (fs : FS) (hlen : shardOk.length = n)
    (hall : shardOk.all id = true) (hplen : p.f1r2s.length = n)
    (v : FilePath') (hv : v ∈ p.f1r2s) :
    v ∈ addShardOutputs fs (shardOk.zip (mutect2PerShardOutputs p n)) := by
  obtain ⟨i, hi, hgd⟩ := exists_lt_getD_eq _ v hv
  refine quad_sub_addShardOutputs shardOk p n fs hlen hall i (by omega) v ?_
  rw [hgd]
  exact List.mem_cons_of_mem _
    (List.mem_cons_of_mem _ (List.mem_cons_self _ _))

theorem tmpStats_sub_addShardOutputs (shardOk : List Bool) (p : Mutect2Paths)
    (n : Nat) (fs : FS) (hlen : shardOk.length = n)
    (hall : shardOk.all id = true) (hplen : p.tmpStats.length = n)
    (v : FilePath') (hv : v ∈ p.tmpStats) :
    v ∈ addShardOutputs fs (shardOk.zip (mutect2PerShardOutputs p n)) := by
  obtain ⟨i, hi, hgd⟩ := exists_lt_getD_eq _ v hv
  refine quad_sub_addShardOutputs shardOk p n fs hlen hall i (by omega) v ?_
  rw [hgd]
  exact List.mem_cons_of_mem _ (List.mem_cons_of_mem _
    (List.mem_cons_of_mem _ (List.mem_cons_self _ _)))

theorem mutect2Run_shard_failure (dirPath matchedId : String)
    (stems : List String) (inputPaths : List FilePath') (shardOk : List Bool)
    (mergeSamsOk learnOk mergeStatsOk mergeVcfsOk : Bool) (fs0 : FS)
    (hlen : shardOk.length = stems.length)
    (hin : inputPaths.all fs0.contains = true)
    (hfail : shardOk.all id = false) :
    mutect2Run dirPath matchedId stems inputPaths shardOk mergeSamsOk learnOk
        mergeStatsOk mergeVcfsOk fs0 =
      ⟨addShardOutputs fs0
          (shardOk.zip (mutect2PerShardOutputs
            (mutect2Paths dirPath matchedId stems) stems.length)),
        some StageError.commandFailed, stems.length⟩ := by
  have hzlen : shardOk.length =
      (mutect2PerShardOutputs (mutect2Paths dirPath matchedId stems)
        stems.length).length := by
    rw [mutect2PerShardOutputs_length, hlen]
  have hallz := zip_all_fst shardOk
    (mutect2PerShardOutputs (mutect2Paths dirPath matchedId stems)
      stems.length) hzlen
  unfold mutect2Run
  simp only
  rw [asyncFanOut_of_inputs _ _ _ hin, hallz, hfail]
  simp only [Bool.false_eq_true, if_false]
  rw [List.length_zip, mutect2PerShardOutputs_length, hlen, Nat.min_self]

theorem mutect2Run_all_ok_chain (dirPath matchedId : String)
    (stems : List String) (inputPaths : List FilePath') (shardOk : List Bool)
    (mergeSamsOk learnOk mergeStatsOk mergeVcfsOk : Bool) (fs0 : FS)
    (hmulti : 1 < stems.length) (hlen : shardOk.length = stems.length)
    (hin : inputPaths.all fs0.contains = true)
    (hall : shardOk.all id = true) :
    mutect2Run dirPath matchedId stems inputPaths shardOk mergeSamsOk learnOk
        mergeStatsOk mergeVcfsOk fs0 =
      (let p := mutect2Paths dirPath matchedId stems
       let fs1 := addShardOutputs fs0
         (shardOk.zip (mutect2PerShardOutputs p stems.length))
       match syncStep fs1 p.tmpCrams [p.outputCram] mergeSamsOk with
       | Except.error e => ⟨fs1, some e, stems.length⟩
       | Except.ok fs2 =>
         match syncStep fs2 p.f1r2s [p.obPriors] learnOk with
         | Except.error e => ⟨fs2, some e, stems.length⟩
         | Except.ok fs3 =>
           match syncStep fs3 p.tmpStats [p.rawStats] mergeStatsOk with
           | Except.error e => ⟨fs3, some e, stems.length⟩
           | Except.ok fs4 =>
             match syncStep fs4 p.tmpVcfs [p.rawVcf] mergeVcfsOk with
             | Except.error e => ⟨fs4, some e, stems.length⟩
             | Except.ok fs5 => ⟨fs5, some StageError.typeError, stems.length⟩) := by
  have hzlen : shardOk.length =
      (mutect2PerShardOutputs (mutect2Paths dirPath matchedId stems)
        stems.length).length := by
    rw [mutect2PerShardOutputs_length, hlen]
  have hallz := zip_all_fst shardOk
    (mutect2PerShardOutputs (mutect2Paths dirPath matchedId stems)
      stems.length) hzlen
  have hslen : (shardOk.zip (mutect2PerShardOutputs
      (mutect2Paths dirPath matchedId stems) stems.length)).length =
      stems.length := by
    rw [List.length_zip, mutect2PerShardOutputs_length, hlen, Nat.min_self]
  unfold mutect2Run
  simp only
  rw [asyncFanOut_of_inputs _ _ _ hin, hallz, hall]
  simp only [if_pos hmulti, hslen, mutect2CleanupArgs_typeError, if_true]

/-- C6: for a Stage fanning out `N > 1` independent Mutect2 shard commands
asynchronously: all `N` shards run to completion even when some fail
(siblings are not force-killed); if any shard fails the run errors out and
the merged VCF is never created — the Stage cannot be marked ready; and
whenever the merged VCF exists after the run, every shard succeeded and
every shard VCF that `MergeVcfs` consumed exists as well, i.e. the merged
output is created only after every shard's declared outputs exist. -/
theorem c6_fanout_join (dirPath matchedId : String) (stems : List String)
    (inputPaths : List FilePath') (shardOk : List Bool)
    (mergeSamsOk learnOk mergeStatsOk mergeVcfsOk : Bool) (fs0 : FS)
    (hmulti : 1 < stems.length) (hlen : shardOk.length = stems.length)
    (hin : inputPaths.all fs0.contains = true)
    (hraw0 : (mutect2Paths dirPath matchedId stems).rawVcf ∉ fs0)
    (hrawsh : ∀ l ∈ mutect2PerShardOutputs
        (mutect2Paths dirPath matchedId stems) stems.length,
      (mutect2Paths dirPath matchedId stems).rawVcf ∉ l) :
    (mutect2Run dirPath matchedId stems inputPaths shardOk mergeSamsOk
        learnOk mergeStatsOk mergeVcfsOk fs0).shardsFinished = stems.length ∧
      (shardOk.all id = false →
        (mutect2Run dirPath matchedId stems inputPaths shardOk mergeSamsOk
            learnOk mergeStatsOk mergeVcfsOk fs0).err ≠ none ∧
          (mutect2Paths dirPath matchedId stems).rawVcf ∉
            (mutect2Run dirPath matchedId stems inputPaths shardOk mergeSamsOk
              learnOk mergeStatsOk mergeVcfsOk fs0).fs ∧
          isReady (mutect2Run dirPath matchedId stems inputPaths shardOk
              mergeSamsOk learnOk mergeStatsOk mergeVcfsOk fs0).fs
            (mutect2OutputPaths dirPath matchedId) = false) ∧
      ((mutect2Paths dirPath matchedId stems).rawVcf ∈
          (mutect2Run dirPath matchedId stems inputPaths shardOk mergeSamsOk
            learnOk mergeStatsOk mergeVcfsOk fs0).fs →
        shardOk.all id = true ∧
          ∀ v ∈ (mutect2Paths dirPath matchedId stems).tmpVcfs,
            v ∈ (mutect2Run dirPath matchedId stems inputPaths shardOk
              mergeSamsOk learnOk mergeStatsOk mergeVcfsOk fs0).fs) := by
  have hfs1raw : (mutect2Paths dirPath matchedId stems).rawVcf ∉
      addShardOutputs fs0 (shardOk.zip (mutect2PerShardOutputs
        (mutect2Paths dirPath matchedId stems) stems.length)) := by
    refine not_mem_addShardOutputs _ _ _ hraw0 (fun sh hshm => ?_)
    exact hrawsh sh.2 (List.of_mem_zip hshm).2
  cases hall : shardOk.all id with
  | false =>
    rw [mutect2Run_shard_failure dirPath matchedId stems inputPaths shardOk
      mergeSamsOk learnOk mergeStatsOk mergeVcfsOk fs0 hlen hin hall]
    refine ⟨rfl, fun _ => ⟨by simp, hfs1raw, ?_⟩,
      fun hmem => absurd hmem hfs1raw⟩
    cases hr : isReady (addShardOutputs fs0 (shardOk.zip
        (mutect2PerShardOutputs (mutect2Paths dirPath matchedId stems)
          stems.length))) (mutect2OutputPaths dirPath matchedId) with
    | false => rfl
    | true =>
      exfalso
      exact hfs1raw ((isReady_iff _ _).mp hr _
        (rawVcf_mem_outputs dirPath matchedId stems))
  | true =>
    have hkey : (mutect2Run dirPath matchedId stems inputPaths shardOk
        mergeSamsOk learnOk mergeStatsOk mergeVcfsOk fs0).shardsFinished =
          stems.length ∧
        ((mutect2Paths dirPath matchedId stems).rawVcf ∈
            (mutect2Run dirPath matchedId stems inputPaths shardOk mergeSamsOk
              learnOk mergeStatsOk mergeVcfsOk fs0).fs →
          ∀ v ∈ (mutect2Paths dirPath matchedId stems).tmpVcfs,
            v ∈ (mutect2Run dirPath matchedId stems inputPaths shardOk
              mergeSamsOk learnOk mergeStatsOk mergeVcfsOk fs0).fs) := by
      rw [mutect2Run_all_ok_chain dirPath matchedId stems inputPaths shardOk
        mergeSamsOk learnOk mergeStatsOk mergeVcfsOk fs0 hmulti hlen hin hall]
      simp only
      cases h1 : syncStep (addShardOutputs fs0 (shardOk.zip
          (mutect2PerShardOutputs (mutect2Paths dirPath matchedId stems)
            stems.length)))
          (mutect2Paths dirPath matchedId stems).tmpCrams
          [(mutect2Paths dirPath matchedId stems).outputCram] mergeSamsOk with
      | error e =>
        simp only
        exact ⟨trivial, fun hmem => absurd hmem hfs1raw⟩
      | ok fs2 =>
        simp only
        obtain ⟨hfs2, -, -⟩ := syncStep_ok_inv _ _ _ _ _ h1
        have hnot2 : (mutect2Paths dirPath matchedId stems).rawVcf ∉ fs2 := by
          rw [hfs2]
          intro hc
          rcases List.mem_append.mp hc with hc | hc
          · exact hfs1raw hc
          · exact rawVcf_ne_outputCram dirPath matchedId stems
              (List.mem_singleton.mp hc)
        cases h2 : syncStep fs2 (mutect2Paths dirPath matchedId stems).f1r2s
            [(mutect2Paths dirPath matchedId stems).obPriors] learnOk with
        | error e =>
          simp only
          exact ⟨trivial, fun hmem => absurd hmem hnot2⟩
        | ok fs3 =>
          simp only
          obtain ⟨hfs3, -, -⟩ := syncStep_ok_inv _ _ _ _ _ h2
          have hnot3 : (mutect2Paths dirPath matchedId stems).rawVcf ∉ fs3 := by
            rw [hfs3]
            intro hc
            rcases List.mem_append.mp hc with hc | hc
            · exact hnot2 hc
            · exact rawVcf_ne_obPriors dirPath matchedId stems
                (List.mem_singleton.mp hc)
          cases h3 : syncStep fs3
              (mutect2Paths dirPath matchedId stems).tmpStats
              [(mutect2Paths dirPath matchedId stems).rawStats]
              mergeStatsOk with
          | error e =>
            simp only
            exact ⟨trivial, fun hmem => absurd hmem hnot3⟩
          | ok fs4 =>
            simp only
            obtain ⟨hfs4, -, -⟩ := syncStep_ok_inv _ _ _ _ _ h3
            have hnot4 : (mutect2Paths dirPath matchedId stems).rawVcf ∉ fs4 := by
              rw [hfs4]
              intro hc
              rcases List.mem_append.mp hc with hc | hc
              · exact hnot3 hc
              · exact rawVcf_ne_rawStats dirPath matchedId stems
                  (List.mem_singleton.mp hc)
            cases h4 : syncStep fs4
                (mutect2Paths dirPath matchedId stems).tmpVcfs
                [(mutect2Paths dirPath matchedId stems).rawVcf]
                mergeVcfsOk with
            | error e =>
              simp only
              exact ⟨trivial, fun hmem => absurd hmem hnot4⟩
            | ok fs5 =>
              simp only
              obtain ⟨hfs5, hvin, -⟩ := syncStep_ok_inv _ _ _ _ _ h4
              refine ⟨trivial, fun _ => fun v hv => ?_⟩
              rw [hfs5]
              exact List.mem_append_left _
                ((all_contains_iff fs4 _).mp hvin v hv)
    refine ⟨hkey.1, fun hfalse => ?_, fun hmem => ⟨rfl, hkey.2 hmem⟩⟩
    exact absurd hfalse (by simp)

theorem c6_witness :
    (mutect2Run "d" "t.n" ["i0", "i1"] ["t.cram", "n.cram"] [true, false]
        true true true true ["t.cram", "n.cram"]).shardsFinished = 2 ∧
      (mutect2Run "d" "t.n" ["i0", "i1"] ["t.cram", "n.cram"] [true, false]
        true true true true ["t.cram", "n.cram"]).err ≠ none ∧
      (mutect2Paths "d" "t.n" ["i0", "i1"]).rawVcf ∉
        (mutect2Run "d" "t.n" ["i0", "i1"] ["t.cram", "n.cram"] [true, false]
          true true true true ["t.cram", "n.cram"]).fs := by
  have h := c6_fanout_join "d" "t.n" ["i0", "i1"] ["t.cram", "n.cram"]
    [true, false] true true true true ["t.cram", "n.cram"]
    (by decide) (by decide) (by decide) (by decide) (by decide)
  have h2 := h.2.1 (by decide)
  exact ⟨h.1, h2.1, h2.2.1⟩

theorem syncStep_all_ok (fs : FS) (ins outs : List FilePath')
    (hin : ins.all fs.contains = true) :
    syncStep fs ins outs true = Except.ok (fs ++ outs) := by
  simp [syncStep, hin]

/-- C9: whenever `CallVariantsWithMutect2.run` executes with more than one
evaluation interval and every preceding command (the Mutect2 shards,
`MergeSAMsIntoSortedSAM`, `LearnReadOrientationModel`, `MergeMutectStats`,
`MergeVcfs`) succeeds, evaluating the `args` expression of the final `rm -f`
cleanup command applies unary plus to a string (the stray comma on line 257
makes `args` a tuple whose second element is `+ ''.join(...)`), so the run
procedure raises `TypeError` at that point and the Stage fails even though
its declared merged outputs (the merged VCF, merged stats, read-orientation
model and output CRAM) were all produced. -/
theorem c9_cleanup_args_always_type_error (dirPath matchedId : String)
    (stems : List String) (inputPaths : List FilePath') (shardOk : List Bool)
    (fs0 : FS) (hmulti : 1 < stems.length)
    (hlen : shardOk.length = stems.length)
    (hin : inputPaths.all fs0.contains = true)
    (hall : shardOk.all id = true) :
    (∀ statsPaths vcfPaths : List String,
        mutect2CleanupArgs statsPaths vcfPaths =
          Except.error (.typeError "bad operand type for unary +: str")) ∧
      (mutect2Run dirPath matchedId stems inputPaths shardOk true true true
          true fs0).err = some StageError.typeError ∧
      (mutect2Paths dirPath matchedId stems).rawVcf ∈
        (mutect2Run dirPath matchedId stems inputPaths shardOk true true true
          true fs0).fs ∧
      (mutect2Paths dirPath matchedId stems).rawStats ∈
        (mutect2Run dirPath matchedId stems inputPaths shardOk true true true
          true fs0).fs ∧
      (mutect2Paths dirPath matchedId stems).obPriors ∈
        (mutect2Run dirPath matchedId stems inputPaths shardOk true true true
          true fs0).fs ∧
      (mutect2Paths dirPath matchedId stems).outputCram ∈
        (mutect2Run dirPath matchedId stems inputPaths shardOk true true true
          true fs0).fs := by
  have hne1 : stems.length ≠ 1 := by omega
  have hlenC := mutect2Paths_tmpCrams_length dirPath matchedId stems hne1
  have hlenV := mutect2Paths_tmpVcfs_length dirPath matchedId stems hne1
  have hlenF := mutect2Paths_f1r2s_length dirPath matchedId stems
  have hlenS := mutect2Paths_tmpStats_length dirPath matchedId stems hne1
  refine ⟨fun a b => mutect2CleanupArgs_typeError a b, ?_⟩
  rw [mutect2Run_all_ok_chain dirPath matchedId stems inputPaths shardOk
    true true true true fs0 hmulti hlen hin hall]
  simp only
  have hc1 : (mutect2Paths dirPath matchedId stems).tmpCrams.all
      (addShardOutputs fs0 (shardOk.zip (mutect2PerShardOutputs
        (mutect2Paths dirPath matchedId stems) stems.length))).contains =
        true :=
    (all_contains_iff _ _).mpr (fun v hv =>
      tmpCrams_sub_addShardOutputs shardOk _ _ fs0 hlen hall hlenC v hv)
  rw [syncStep_all_ok _ _ _ hc1]
  simp only
  have hc2 : (mutect2Paths dirPath matchedId stems).f1r2s.all
      ((addShardOutputs fs0 (shardOk.zip (mutect2PerShardOutputs
          (mutect2Paths dirPath matchedId stems) stems.length)) ++
        [(mutect2Paths dirPath matchedId stems).outputCram])).contains =
        true :=
    (all_contains_iff _ _).mpr (fun v hv => List.mem_append_left _
      (f1r2s_sub_addShardOutputs shardOk _ _ fs0 hlen hall hlenF v hv))
  rw [syncStep_all_ok _ _ _ hc2]
  simp only
  have hc3 : (mutect2Paths dirPath matchedId stems).tmpStats.all
      (((addShardOutputs fs0 (shardOk.zip (mutect2PerShardOutputs
          (mutect2Paths dirPath matchedId stems) stems.length)) ++
        [(mutect2Paths dirPath matchedId stems).outputCram]) ++
        [(mutect2Paths dirPath matchedId stems).obPriors])).contains = true :=
    (all_contains_iff _ _).mpr (fun v hv => List.mem_append_left _
      (List.mem_append_left _
        (tmpStats_sub_addShardOutputs shardOk _ _ fs0 hlen hall hlenS v hv)))
  rw [syncStep_all_ok _ _ _ hc3]
  simp only
  have hc4 : (mutect2Paths dirPath matchedId stems).tmpVcfs.all
      ((((addShardOutputs fs0 (shardOk.zip (mutect2PerShardOutputs
          (mutect2Paths dirPath matchedId stems) stems.length)) ++
        [(mutect2Paths dirPath matchedId stems).outputCram]) ++
        [(mutect2Paths dirPath matchedId stems).obPriors]) ++
        [(mutect2Paths dirPath matchedId stems).rawStats])).contains = true :=
    (all_contains_iff _ _).mpr (fun v hv => List.mem_append_left _
      (List.mem_append_left _ (List.mem_append_left _
        (tmpVcfs_sub_addShardOutputs shardOk _ _ fs0 hlen hall hlenV v hv))))
  rw [syncStep_all_ok _ _ _ hc4]
  simp only
  refine ⟨trivial, ?_, ?_, ?_, ?_⟩
  · exact List.mem_append_right _ (List.mem_singleton.mpr rfl)
  · exact List.mem_append_left _
      (List.mem_append_right _ (List.mem_singleton.mpr rfl))
  · exact List.mem_append_left _ (List.mem_append_left _
      (List.mem_append_right _ (List.mem_singleton.mpr rfl)))
  · exact List.mem_append_left _ (List.mem_append_left _
      (List.mem_append_left _
        (List.mem_append_right _ (List.mem_singleton.mpr rfl))))

theorem c9_witness :
    (mutect2Run "d" "t.n" ["i0", "i1"] ["t.cram", "n.cram"] [true, true]
        true true true true ["t.cram", "n.cram"]).err =
      some StageError.typeError ∧
      (mutect2Paths "d" "t.n" ["i0", "i1"]).rawVcf ∈
        (mutect2Run "d" "t.n" ["i0", "i1"] ["t.cram", "n.cram"] [true, true]
          true true true true ["t.cram", "n.cram"]).fs ∧
      mutect2CleanupArgs ["a.stats"] ["a.vcf.gz"] =
        Except.error (.typeError "bad operand type for unary +: str") := by
  have h := c9_cleanup_args_always_type_error "d" "t.n" ["i0", "i1"]
    ["t.cram", "n.cram"] [true, true] ["t.cram", "n.cram"]
    (by decide) (by decide) (by decide) (by decide)
  exact ⟨h.2.1, h.2.2.1, h.1 ["a.stats"] ["a.vcf.gz"]⟩

/-! ### The AF-only VCF line filter (processvcf.py)

`_write_af_only_vcf_bgz` (`processvcf.py` lines 49-92) streams a VCF line by
line: header lines (starting `#`) are copied; other lines are written iff
`search_regex = re.compile('\tPASS\t.*[\t;]AF=[^;]')` finds a match, and the
written text is
`re.sub('(\t[^\t]*;|\t)(AF=[0-9]*\\.[e0-9+-]*)[^\t\r\n]*', '\t\\2', s)`.
Both regexes are embedded below over character lists with Python semantics
(`.` does not match a newline; alternation is left-biased; starred classes
are greedy, backtracking longest-first; `re.sub` rewrites every
non-overlapping leftmost match). -/

/-- The Python character class `[e0-9+-]`. -/
def afValClass (c : Char) : Bool :=
  c == 'e' || c.isDigit || c == '+' || c == '-'

/-- The Python character class `[^\t\r\n]`. -/
def notTabCrLf (c : Char) : Bool :=
  c != '\t' && c != '\r' && c != '\n'

def stripPrefixL : List Char → List Char → Option (List Char)
  | [], l => some l
  | _ :: _, [] => none
  | p :: ps, c :: cs => if p = c then stripPrefixL ps cs else none

/-- Embedded from `processvcf.py` line 55: the tail `[\t;]AF=[^;]` of the
search pattern, tested at one position. -/
def afEntryAt : List Char → Bool
  | c :: 'A' :: 'F' :: '=' :: d :: _ => (c == '\t' || c == ';') && d != ';'
  | _ => false

/-- The `.*[\t;]AF=[^;]` part of the search pattern: some number of
non-newline characters (Python `.` without `DOTALL`), then the AF entry. -/
def existsAfAfterDots : List Char → Bool
  | [] => false
  | c :: rest => afEntryAt (c :: rest) || (c != '\n' && existsAfAfterDots rest)

/-- Embedded from `processvcf.py` line 55:
`re.compile('\tPASS\t.*[\t;]AF=[^;]')` under `re.search` semantics — does the
pattern match anywhere in the line? -/
def searchRegexMatches : List Char → Bool
  | [] => false
  | c :: rest =>
    (match stripPrefixL "\tPASS\t".data (c :: rest) with
     | some r => existsAfAfterDots r
     | none => false) ||
    searchRegexMatches rest

/-- The group-2-and-trailing part `(AF=[0-9]*\.[e0-9+-]*)[^\t\r\n]*` of the
substitution pattern at one position: returns the captured group 2 and the
rest of the input after the whole (greedy) match.  `[0-9]*` and `[e0-9+-]*`
take the maximal run (no later constraint can force backtracking, since the
character after a maximal digit run is never `.`). -/
def matchAfPart : List Char → Option (List Char × List Char)
  | 'A' :: 'F' :: '=' :: r1 =>
    let ds := r1.takeWhile (fun c => c.isDigit)
    let r2 := r1.dropWhile (fun c => c.isDigit)
    match r2 with
    | '.' :: r3 =>
      let es := r3.takeWhile afValClass
      let r4 := r3.dropWhile afValClass
      some ('A' :: 'F' :: '=' :: (ds ++ '.' :: es), r4.dropWhile notTabCrLf)
    | _ => none
  | _ => none

/-- The first alternative `\t[^\t]*;` of group 1 (the leading `\t` already
consumed): try `[^\t]*` runs longest-first (Python greedy backtracking),
requiring a `;` and then the AF part.  `tryAlt1From j l` tries the runs of
length `j-1, j-2, ..., 0`. -/
def tryAlt1From : Nat → List Char → Option (List Char × List Char)
  | 0, _ => none
  | j + 1, l =>
    match (match l.drop j with
           | ';' :: r => matchAfPart r
           | _ => none) with
    | some res => some res
    | none => tryAlt1From j l

/-- Embedded from `processvcf.py` lines 56-58: one attempt of the whole
substitution pattern `(\t[^\t]*;|\t)(AF=[0-9]*\.[e0-9+-]*)[^\t\r\n]*` at the
current position, with Python preference order (first alternative with its
greedy backtracking before the second).  Returns the captured group 2 and
the rest of the input after the match. -/
def subMatchAt : List Char → Option (List Char × List Char)
  | '\t' :: r =>
    (match tryAlt1From ((r.takeWhile (fun c => c != '\t')).length) r with
     | some res => some res
     | none => matchAfPart r)
  | _ => none

/-- Embedded from `processvcf.py` line 78: `re.sub(*sub_regexes, s)` —
replace every non-overlapping leftmost match by `'\t' + group 2`, scanning
left to right (fuel-indexed so that it evaluates by `decide`; the fuel
`l.length` always suffices since every match consumes at least the `\t`). -/
def subAllFuel : Nat → List Char → List Char
  | 0, l => l
  | fuel + 1, l =>
    match subMatchAt l with
    | some (g2, rest) => '\t' :: (g2 ++ subAllFuel fuel rest)
    | none =>
      match l with
      | [] => []
      | c :: tl => c :: subAllFuel fuel tl

def subAll (l : List Char) : List Char := subAllFuel l.length l

/-- Embedded from `processvcf.py` lines 72-79: the per-line processing of
`_write_af_only_vcf_bgz` — a line starting `#` is written unchanged, any
other line is written iff the search regex finds a match, and the written
text is the substituted line; `none` means the line is dropped. -/
def writeAfOnlyLine (l : List Char) : Option (List Char) :=
  if l.head? = some '#' then some l
  else if searchRegexMatches l then some (subAll l) else none

/-- Embedded from `processvcf.py` lines 72-79: the whole-stream behaviour —
the output lines are the written lines in order. -/
def writeAfOnlyLines (lines : List (List Char)) : List (List Char) :=
  lines.filterMap writeAfOnlyLine

/-- C10 counterexample: the claim that every written data line is rewritten
with its trailing INFO text replaced by a single tab plus only its AF entry
fails on `"1\tPASS\tX;AF=5\n"`: the line matches the search pattern (the
filter column is `PASS` and `;AF=5` has a non-empty, non-`;` value), so it
is written — but the substitution pattern requires a decimal point in the AF
value (`AF=[0-9]*\.`), finds no match, and the line is written completely
unchanged, with `X;` and the rest of the INFO text still in place. -/
theorem c10_counterexample :
    writeAfOnlyLine ("1\tPASS\tX;AF=5\n".data) =
        some ("1\tPASS\tX;AF=5\n".data) ∧
      ("1\tPASS\tX;AF=5\n".data).head? ≠ some '#' ∧
      searchRegexMatches ("1\tPASS\tX;AF=5\n".data) = true ∧
      writeAfOnlyLine ("1\tPASS\tX;AF=5\n".data) ≠
        some ("1\tPASS\tAF=5\n".data) := by
  refine ⟨by decide, by decide, by decide, by decide⟩

/-- C10 amended: for every input line of `_write_af_only_vcf_bgz`, a line
starting `#` is written unchanged; any other line is written iff it matches
the search pattern `'\tPASS\t.*[\t;]AF=[^;]'`, and the written text is the
result of the substitution
`re.sub('(\t[^\t]*;|\t)(AF=[0-9]*\.[e0-9+-]*)[^\t\r\n]*', '\t\\2', line)`
applied to every leftmost non-overlapping occurrence — which, when the AF
value contains a decimal point, replaces the trailing INFO text by a single
tab plus only the `AF=<decimal>` entry, but leaves a written line whose AF
value has no decimal point unchanged; all non-matching data lines are
dropped.  The concrete conjuncts exhibit each behaviour, including the
whole-stream order-preserving filter. -/
theorem c10_amended_af_line_filter (l : List Char) :
    (l.head? = some '#' → writeAfOnlyLine l = some l) ∧
      (l.head? ≠ some '#' →
        ((writeAfOnlyLine l).isSome ↔ searchRegexMatches l = true)) ∧
      (l.head? ≠ some '#' → searchRegexMatches l = true →
        writeAfOnlyLine l = some (subAll l)) ∧
      (l.head? ≠ some '#' → searchRegexMatches l = false →
        writeAfOnlyLine l = none) ∧
      writeAfOnlyLine ("#CHROM\tPOS\tID\tREF\tALT\tQUAL\tFILTER\tINFO\n".data) =
        some ("#CHROM\tPOS\tID\tREF\tALT\tQUAL\tFILTER\tINFO\n".data) ∧
      writeAfOnlyLine ("1\t100\trs1\tA\tT\t.\tPASS\tAC=2;AF=0.01;AN=4\n".data) =
        some ("1\t100\trs1\tA\tT\t.\tPASS\tAF=0.01\n".data) ∧
      writeAfOnlyLine
          ("1\t100\trs1\tA\tT\t.\tartifact\tAC=2;AF=0.5;AN=4\n".data) =
        none ∧
      writeAfOnlyLine ("1\tPASS\tX;AF=5\n".data) =
        some ("1\tPASS\tX;AF=5\n".data) ∧
      writeAfOnlyLines
          [("#CHROM\n".data), ("1\t100\trs1\tA\tT\t.\tPASS\tAC=2;AF=0.01;AN=4\n".data),
           ("2\t5\trs2\tC\tG\t.\tq10\tAF=0.5;AN=2\n".data)] =
        [("#CHROM\n".data), ("1\t100\trs1\tA\tT\t.\tPASS\tAF=0.01\n".data)] := by
  refine ⟨?_, ?_, ?_, ?_, by decide, by decide, by decide, by decide, by decide⟩
  · intro hh
    simp [writeAfOnlyLine, hh]
  · intro hh
    simp only [writeAfOnlyLine, hh, if_false]
    cases hs : searchRegexMatches l with
    | false => simp
    | true => simp
  · intro hh hs
    simp [writeAfOnlyLine, hh, hs]
  · intro hh hs
    simp [writeAfOnlyLine, hh, hs]

theorem c10_witness :
    writeAfOnlyLine ("1\t100\trs1\tA\tT\t.\tPASS\tAC=2;AF=0.5e-03;AN=4\n".data) =
      some (subAll ("1\t100\trs1\tA\tT\t.\tPASS\tAC=2;AF=0.5e-03;AN=4\n".data)) :=
  (c10_amended_af_line_filter
      ("1\t100\trs1\tA\tT\t.\tPASS\tAC=2;AF=0.5e-03;AN=4\n".data)).2.2.1
    (by decide) (by decide)

end Vcline
